import Mathlib

/-!
Verification of the `containers::Vector<T>` dynamic array from
`src/vector/vector.h` (a C++ container library), via a shallow embedding.

Modelling conventions:
* The raw heap buffer `data_` is modelled as a total function `Nat → T`
  (an idealised unbounded buffer); `capacity_` records the allocated slot
  count, so a write at an index `≥ capacity` corresponds to a write past
  the end of the C++ allocation (undefined behaviour in the source
  language) and is visible in the model as a state with `size > capacity`.
* `size_t` values are modelled as `Nat`; where the source can wrap below
  zero (`size_ - 1` on an empty vector) we model the wrap explicitly with
  arithmetic modulo `W = 2^64`.
* Freshly allocated slots (`new T[n]`) are modelled as holding `default`;
  they are logically unused and never read by the specified operations.
* A thrown exception is modelled with `Except`/`Option`; where a claim is
  about the state left behind by a throwing operation, the operation
  returns `Except (Vec T) (Vec T)`, the `error` case carrying the state of
  the object at the moment the exception escaped.
* An iterator (`VectorIterator<T>`, whose header is not among the reviewed
  sources) is modelled by the buffer offset it designates.
-/

namespace Containers

/-- Width of `size_t`: arithmetic on sizes is modulo `W`. -/
def W : Nat := 2 ^ 64

/-- The state of a `containers::Vector<T>`: idealised buffer contents,
logical size `size_`, and allocated slot count `capacity_`. -/
structure Vec (T : Type) where
  data : Nat → T
  size : Nat
  capacity : Nat

variable {T : Type} [Inhabited T]

/-- Pointwise update of the modelled buffer: `d[i] = x`. -/
def upd (d : Nat → T) (i : Nat) (x : T) : Nat → T :=
  fun j => if j = i then x else d j

/-- Source `Vector(std::initializer_list<T>)`: allocates `items.size()` slots,
copies the items; `size_ = capacity_ = items.size()`. -/
def fromList (l : List T) : Vec T :=
  ⟨fun i => l.getD i default, l.length, l.length⟩

/-- The logically valid elements `[0, size)`, in order. -/
def toList (v : Vec T) : List T :=
  (List.range v.size).map v.data

/-- Source `Vector(const Vector&)` (copy constructor): allocates a fresh buffer of
`v.size()` slots and copies `[begin, end)`; `size_ = capacity_ = v.size()`. -/
def copyCtor (v : Vec T) : Vec T :=
  ⟨fun i => if i < v.size then v.data i else default, v.size, v.size⟩

/-- Source `Vector(Vector&& v)` (move constructor): adopts `v.data_`, sets
`size_ = v.size()` and `capacity_ = v.size()` (not `v.capacity()`), then
zeroes the `size_` of the source and `capacity_` (its `data_` was moved out).
Returns (new vector, state the source is left in). -/
def moveCtor (v : Vec T) : Vec T × Vec T :=
  (⟨v.data, v.size, v.size⟩, ⟨fun _ => default, 0, 0⟩)

/-- Source `operator=(Vector&& v)`: copies `v.size()` and `v.capacity()` into the
destination, allocates a fresh buffer of `size_` slots and copies
`[v.begin(), v.end())` into it.  The source `v` is not modified.
Returns (state of the destination, state the source is left in). -/
def moveAssign (_a v : Vec T) : Vec T × Vec T :=
  (⟨fun i => if i < v.size then v.data i else default, v.size, v.capacity⟩, v)

/-- Source `reserve(new_cap)`: a request of `0` becomes `2`; if the (adjusted)
request exceeds `capacity()`, copy `*this` to `tmp`, set
`capacity_ = new_cap`, allocate and copy the elements of `tmp` back; otherwise
do nothing. -/
def reserve (v : Vec T) (new_cap : Nat) : Vec T :=
  let nc := if new_cap = 0 then 2 else new_cap
  if v.capacity < nc then
    ⟨fun i => if i < v.size then v.data i else default, v.size, nc⟩
  else v

/-- Source `at(pos)` (and `operator[]`, which delegates to `at`): throws
`std::out_of_range` when `pos >= size_`, otherwise reads
`*(begin() + pos)`, i.e. buffer slot `pos`.  `none` models the throw. -/
def atPos (v : Vec T) (pos : Nat) : Option T :=
  if v.size ≤ pos then none else some (v.data pos)

/-- Source `front()`: `at(0)`. -/
def front (v : Vec T) : Option T :=
  atPos v 0

/-- Source `back()`: `at(size_ - 1)`, the subtraction wrapping in `size_t`. -/
def back (v : Vec T) : Option T :=
  atPos v ((v.size + (W - 1)) % W)

/-- Source `set_element(pos, value)`: `this->at(pos) = value`; the bounds check in
`at` runs before any mutation, so on `pos >= size_` the exception escapes
with the vector unchanged (the `error` state). -/
def set_element (v : Vec T) (pos : Nat) (value : T) : Except (Vec T) (Vec T) :=
  if v.size ≤ pos then .error v
  else .ok ⟨upd v.data pos value, v.size, v.capacity⟩

/-- Source `shrink_to_fit()`: if `size_ < capacity_`, set `capacity_ = size_`,
allocate `capacity_` slots, copy `[0, size_)` across. -/
def shrink_to_fit (v : Vec T) : Vec T :=
  if v.size < v.capacity then
    ⟨fun i => if i < v.size then v.data i else default, v.size, v.size⟩
  else v

/-- Source `clear()`: `size_ = 0`. -/
def clear (v : Vec T) : Vec T :=
  ⟨v.data, 0, v.capacity⟩

/-- Source `pop_back()`: decrements `size_` only when it is positive. -/
def pop_back (v : Vec T) : Vec T :=
  if 0 < v.size then ⟨v.data, v.size - 1, v.capacity⟩ else v

/-- Source `swap(other)`: exchanges `data_`, `size_`, `capacity_`. -/
def swap (a b : Vec T) : Vec T × Vec T :=
  (b, a)

/-- The body of the fold `((data_[size_++] = args), ...)` in
`insert_many_back` and of `((it[posIndex++] = args), ...)` in `insert_many`: writes the
arguments into consecutive buffer slots starting at `p`, in order. -/
def writeArgs (d : Nat → T) (p : Nat) : List T → (Nat → T)
  | [] => d
  | a :: rest => writeArgs (upd d p a) (p + 1) rest

/-- The shifting loop of `insert_many`,
`for (i = size+numArgs-1; i >= posIndex+numArgs; --i) it[i] = it[i-numArgs];`
run for `k` iterations starting at index `i`, each doing
`d[i] = d[i - n]` (buffer-absolute subscripts) and decrementing `i`. -/
def shiftIter (d : Nat → T) (n : Nat) (i : Nat) : Nat → (Nat → T)
  | 0 => d
  | k + 1 => shiftIter (upd d i (d (i - n))) n (i - 1) k

/-- Source `insert_many(pos, args...)`, the position iterator given by its offset
`posIndex = std::distance(begin(), pos)`.  If `size() + numArgs`
exceeds `capacity()`, grow via `reserve(size() + numArgs)` and recompute
`pos = begin() + posIndex`; shift the `size() - posIndex` elements at
offsets `[posIndex, size())` up by `numArgs` working downward from
`size() + numArgs - 1` (the loop runs `(size+numArgs-1) - (posIndex+numArgs) + 1
= size - posIndex` times for `numArgs ≥ 1`); write the arguments at
`[posIndex, posIndex + numArgs)`; add `numArgs` to `size_`.  Returns the
new state and the offset of the returned iterator `pos`.

Modelled from the spec: `VectorIterator<T>` (its header is not among the
reviewed sources) holds the shared buffer and an index, and its subscript
`it[i]` designates buffer slot `i` (buffer-absolute); §4.1 of the spec
describes the shift as moving the elements at and after the target offset,
working from the last occupied slot down to the insertion offset, and the
`{1,2,3} ⟶ {1,4,5,6,2,3}` scenario pins this reading down. -/
def insert_many (v : Vec T) (posIndex : Nat) (args : List T) : Vec T × Nat :=
  let numArgs := args.length
  let v1 := if v.capacity < v.size + numArgs then reserve v (v.size + numArgs) else v
  let d1 := shiftIter v1.data numArgs (v1.size + numArgs - 1) (v1.size - posIndex)
  let d2 := writeArgs d1 posIndex args
  (⟨d2, v1.size + numArgs, v1.capacity⟩, posIndex)

/-- Source `insert_many_back(args...)`: if `size() == capacity()`, grow via
`reserve(capacity() * 2)` (checked once, before any write); then
`((data_[size_++] = args), ...)`. -/
def insert_many_back (v : Vec T) (args : List T) : Vec T :=
  let v1 := if v.size = v.capacity then reserve v (v.capacity * 2) else v
  ⟨writeArgs v1.data v1.size args, v1.size + args.length, v1.capacity⟩

/-- Source `push_back(value)`: `insert_many_back(value)`. -/
def push_back (v : Vec T) (value : T) : Vec T :=
  insert_many_back v [value]

/-- Source `insert(pos, value)`: `insert_many(pos, value)`. -/
def insert (v : Vec T) (posIndex : Nat) (value : T) : Vec T × Nat :=
  insert_many v posIndex [value]

/-- The shifting loop of `erase`, `for (i = posIndex; i < size()-1; ++i)
it[i] = it[i+1];` run for `k` iterations starting at index `i`, each doing
`d[i] = d[i+1]` and incrementing `i`. -/
def eraseLoop (d : Nat → T) (i : Nat) : Nat → (Nat → T)
  | 0 => d
  | k + 1 => eraseLoop (upd d i (d (i + 1))) (i + 1) k

/-- Source `erase(pos)`, the iterator given by its offset
`posIndex = std::distance(begin(), pos)`: shift every element after
`posIndex` one slot left (loop bound `size() - 1` computed in `size_t`,
so it wraps on an empty vector), then `--size_` (again in `size_t`). -/
def erase (v : Vec T) (posIndex : Nat) : Vec T :=
  let bound := (v.size + (W - 1)) % W
  ⟨eraseLoop v.data posIndex (bound - posIndex), (v.size + (W - 1)) % W, v.capacity⟩

/-- Source `allocate_vector` can throw (`std::bad_alloc` rethrown as
`runtime_error`).  `reserve` with an explicit allocation oracle:
`ok1` is the success of the allocation inside the snapshot copy
`auto tmp{*this}` (which runs before any mutation of `*this`), `ok2` the
success of `allocate_vector(capacity_)` (which runs after
`capacity_ = new_cap` has been assigned).  The `error` state is the state
of `*this` when the exception escapes `reserve`. -/
def reserveAlloc (ok1 ok2 : Bool) (v : Vec T) (new_cap : Nat) : Except (Vec T) (Vec T) :=
  let nc := if new_cap = 0 then 2 else new_cap
  if v.capacity < nc then
    if ok1 = false then .error v
    else if ok2 = false then .error ⟨v.data, v.size, nc⟩
    else .ok ⟨fun i => if i < v.size then v.data i else default, v.size, nc⟩
  else .ok v

/-- Source `insert_many` with the allocation oracle threaded through its growth
step (`reserve(size() + numArgs)`); if the allocation throws, the
exception escapes before any element is shifted or written. -/
def insert_manyAlloc (ok1 ok2 : Bool) (v : Vec T) (posIndex : Nat) (args : List T) :
    Except (Vec T) (Vec T × Nat) :=
  let numArgs := args.length
  if v.capacity < v.size + numArgs then
    match reserveAlloc ok1 ok2 v (v.size + numArgs) with
    | .error w => .error w
    | .ok v1 =>
      let d1 := shiftIter v1.data numArgs (v1.size + numArgs - 1) (v1.size - posIndex)
      let d2 := writeArgs d1 posIndex args
      .ok (⟨d2, v1.size + numArgs, v1.capacity⟩, posIndex)
  else
    let d1 := shiftIter v.data numArgs (v.size + numArgs - 1) (v.size - posIndex)
    let d2 := writeArgs d1 posIndex args
    .ok (⟨d2, v.size + numArgs, v.capacity⟩, posIndex)

/-- The data-model invariant of §3: `0 ≤ size ≤ capacity` (the lower bound
is inherent in `Nat`). -/
def Inv (v : Vec T) : Prop := v.size ≤ v.capacity

/-- Source `Vector()` (default constructor): null buffer, `size_ = capacity_ = 0`. -/
def emptyVec : Vec T := ⟨fun _ => default, 0, 0⟩

/-- Source `Vector(size_type capacity, const_reference value)`: allocates
`capacity` slots, fills all of them with `value`;
`size_ = capacity_ = capacity`. -/
def fillCtor (n : Nat) (x : T) : Vec T :=
  ⟨fun i => if i < n then x else default, n, n⟩

/-- The state carried out with a thrown exception, when one was thrown. -/
def errVec : Except (Vec T) (Vec T) → Option (Vec T)
  | .error w => some w
  | .ok _ => none

/-- The state after a normal return, when the call did not throw. -/
def okVec : Except (Vec T) (Vec T) → Option (Vec T)
  | .ok w => some w
  | .error _ => none

/-- As `errVec`, for a call that also returns an iterator on success. -/
def errVecI : Except (Vec T) (Vec T × Nat) → Option (Vec T)
  | .error w => some w
  | .ok _ => none

/-! ## Helper lemmas -/

omit [Inhabited T] in
lemma upd_apply (d : Nat → T) (i : Nat) (x : T) (j : Nat) :
    upd d i x j = if j = i then x else d j := rfl

lemma toList_copy (v : Vec T) (c : Nat) :
    toList (⟨fun i => if i < v.size then v.data i else default, v.size, c⟩ : Vec T)
      = toList v := by
  unfold toList
  apply List.map_congr_left
  intro a ha
  simp only [List.mem_range] at ha
  simp [ha]

/-- What `writeArgs` produces, pointwise: the arguments occupy
`[p, p + args.length)` in order; everything else is untouched. -/
lemma writeArgs_eq (args : List T) :
    ∀ (d : Nat → T) (p j : Nat),
      writeArgs d p args j =
        if p ≤ j ∧ j < p + args.length then args.getD (j - p) default else d j := by
  induction args with
  | nil =>
    intro d p j
    rw [writeArgs, if_neg (by simp only [List.length_nil]; omega)]
  | cons a rest ih =>
    intro d p j
    simp only [List.length_cons]
    rw [writeArgs, ih]
    by_cases h1 : p + 1 ≤ j ∧ j < p + 1 + rest.length
    · rw [if_pos h1, if_pos (by constructor <;> omega)]
      have hj : j - p = (j - (p + 1)) + 1 := by omega
      rw [hj, List.getD_cons_succ]
    · rw [if_neg h1, upd_apply]
      by_cases h2 : j = p
      · subst h2
        rw [if_pos rfl, if_pos (by constructor <;> omega), Nat.sub_self, List.getD_cons_zero]
      · rw [if_neg h2, if_neg (by omega)]

omit [Inhabited T] in
/-- What the downward shifting loop of `insert_many` produces, pointwise:
after `k` iterations ending at index `low`, every slot in `[low, low + k)`
holds what was `n` slots below it, and nothing else changed.  (Each
iteration reads strictly below every slot already written, so all reads
see the original buffer.) -/
lemma shiftIter_eq (n low : Nat) :
    ∀ (k : Nat) (d : Nat → T) (j : Nat),
      shiftIter d n (low + k - 1) k j =
        if low ≤ j ∧ j < low + k then d (j - n) else d j := by
  intro k
  induction k with
  | zero =>
    intro d j
    rw [shiftIter, if_neg (by omega)]
  | succ k ih =>
    intro d j
    have h1 : low + (k + 1) - 1 = low + k := by omega
    rw [h1, shiftIter]
    have h2 : low + k - 1 = low + k - 1 := rfl
    rw [ih]
    by_cases hj : low ≤ j ∧ j < low + k
    · rw [if_pos hj, if_pos (by constructor <;> omega), upd_apply, if_neg (by omega)]
    · rw [if_neg hj]
      by_cases hj2 : j = low + k
      · subst hj2
        rw [upd_apply, if_pos rfl, if_pos (by constructor <;> omega)]
      · rw [upd_apply, if_neg hj2, if_neg (by omega)]

omit [Inhabited T] in
/-- What the upward shifting loop of `erase` produces, pointwise: after
`k` iterations starting at index `p`, every slot in `[p, p + k)` holds
what was one slot above it, and nothing else changed. -/
lemma eraseLoop_eq :
    ∀ (k : Nat) (d : Nat → T) (p j : Nat),
      eraseLoop d p k j =
        if p ≤ j ∧ j < p + k then d (j + 1) else d j := by
  intro k
  induction k with
  | zero =>
    intro d p j
    rw [eraseLoop, if_neg (by omega)]
  | succ k ih =>
    intro d p j
    rw [eraseLoop, ih]
    by_cases h1 : p + 1 ≤ j ∧ j < p + 1 + k
    · rw [if_pos h1, if_pos (by constructor <;> omega), upd_apply, if_neg (by omega)]
    · rw [if_neg h1, upd_apply]
      by_cases h2 : j = p
      · subst h2
        rw [if_pos rfl, if_pos (by constructor <;> omega)]
      · rw [if_neg h2, if_neg (by omega)]

/-- The combined effect of the shift-then-write phase of `insert_many` on a
buffer `d` holding `S` elements: arguments land at `[p, p + n)`, the old
elements of `[p, S)` land at `[p + n, S + n)`, everything below `p` is
untouched. -/
lemma insert_core (d : Nat → T) (S p : Nat) (args : List T) (hp : p ≤ S) (j : Nat) :
    writeArgs (shiftIter d args.length (S + args.length - 1) (S - p)) p args j =
      if p ≤ j ∧ j < p + args.length then args.getD (j - p) default
      else if p + args.length ≤ j ∧ j < S + args.length then d (j - args.length)
      else d j := by
  have hs : S + args.length - 1 = (p + args.length) + (S - p) - 1 := by omega
  rw [hs, writeArgs_eq, shiftIter_eq]
  by_cases h1 : p ≤ j ∧ j < p + args.length
  · rw [if_pos h1, if_pos h1]
  · rw [if_neg h1, if_neg h1]
    by_cases h2 : p + args.length ≤ j ∧ j < (p + args.length) + (S - p)
    · rw [if_pos h2, if_pos (by constructor <;> omega)]
    · rw [if_neg h2, if_neg (by omega)]

/-! ## Claim theorems -/

/-- C10: after move-construction `Vector b(move(a))`, `b.capacity()`
equals the prior `size()` of `a` (not its prior `capacity()`), `b` holds
the prior elements of `a` in order, and `a` is left with `size() = 0` and
`capacity() = 0`. -/
theorem C10_move_ctor (v : Vec T) :
    (moveCtor v).1.capacity = v.size ∧
    (moveCtor v).1.size = v.size ∧
    toList (moveCtor v).1 = toList v ∧
    (moveCtor v).2.size = 0 ∧
    (moveCtor v).2.capacity = 0 :=
  ⟨rfl, rfl, rfl, rfl, rfl⟩

/-- C4 counterexample: after `a = move(b)` with `b = {1, 2}`, the source
`b` still has `size() = 2` — it is not emptied, refuting
`b.size() = 0 ∧ b.capacity() = 0`. -/
theorem C4_counterexample :
    (moveAssign (fromList ([9] : List Nat)) (fromList [1, 2])).2.size = 2 ∧
    (moveAssign (fromList ([9] : List Nat)) (fromList [1, 2])).2.capacity = 2 := by
  constructor <;> rfl

/-- C4 amended: after move-assignment `a = move(b)`, `a` holds the
elements `b` held before the assignment (with `a.size() = b.size()` and
`a.capacity() = b.capacity()`), while the source `b` is left entirely
unchanged — move-assignment copies the source instead of emptying it. -/
theorem C4_move_assign (a b : Vec T) :
    toList (moveAssign a b).1 = toList b ∧
    (moveAssign a b).1.size = b.size ∧
    (moveAssign a b).1.capacity = b.capacity ∧
    (moveAssign a b).2 = b :=
  ⟨toList_copy b b.capacity, rfl, rfl, rfl⟩

omit [Inhabited T] in
/-- C5: `at(pos)` (and `operator[]`, which simply delegates to `at`)
fails with `OutOfRange` exactly when `pos ≥ size()`, returns the element
at `pos` otherwise, and on an empty vector `front()` and `back()` fail
with `OutOfRange` (for `back()` because `size_ - 1` wraps in `size_t`). -/
theorem C5_checked_access (v : Vec T) (pos : Nat) :
    (atPos v pos = none ↔ v.size ≤ pos) ∧
    (pos < v.size → atPos v pos = some (v.data pos)) ∧
    (v.size = 0 → front v = none ∧ back v = none) := by
  refine ⟨⟨fun h => ?_, fun h => ?_⟩, fun h => ?_, fun h => ⟨?_, ?_⟩⟩
  · by_contra hlt
    rw [atPos, if_neg hlt] at h
    exact Option.some_ne_none _ h
  · rw [atPos, if_pos h]
  · rw [atPos, if_neg (by omega)]
  · rw [front, atPos, if_pos (by omega)]
  · rw [back, atPos, if_pos (by omega)]

/-- C5 witness: on `{7, 9}` position 1 reads `9` and position 2 is out of
range; on the empty vector `front()` and `back()` fail. -/
theorem C5_checked_access_witness :
    atPos (fromList [7, 9]) 1 = some 9 ∧
    atPos (fromList [7, 9]) 2 = none ∧
    front (fromList ([] : List Nat)) = none ∧
    back (fromList ([] : List Nat)) = none := by
  refine ⟨?_, ?_, ?_, ?_⟩
  · exact (C5_checked_access (fromList [7, 9]) 1).2.1 (by decide)
  · exact ((C5_checked_access (fromList [7, 9]) 2).1).mpr (by decide)
  · exact ((C5_checked_access (fromList ([] : List Nat)) 0).2.2 (by decide)).1
  · exact ((C5_checked_access (fromList ([] : List Nat)) 0).2.2 (by decide)).2

omit [Inhabited T] in
/-- C9: `set_element(pos, value)` overwrites the element at `pos` when
`pos < size()`, leaving every other slot, the size and the capacity
unchanged; when `pos ≥ size()` it fails with `OutOfRange` (the check in
`at` precedes the assignment) leaving the vector entirely unchanged. -/
theorem C9_set_element (v : Vec T) (pos : Nat) (x : T) :
    (pos < v.size →
      okVec (set_element v pos x) = some ⟨upd v.data pos x, v.size, v.capacity⟩) ∧
    (v.size ≤ pos → set_element v pos x = .error v) ∧
    upd v.data pos x pos = x ∧
    (∀ j, j ≠ pos → upd v.data pos x j = v.data j) := by
  refine ⟨fun h => ?_, fun h => ?_, ?_, fun j hj => ?_⟩
  · rw [set_element, if_neg (by omega)]
    rfl
  · rw [set_element, if_pos h]
  · rw [upd_apply, if_pos rfl]
  · rw [upd_apply, if_neg hj]

/-- C9 witness: on `{5, 6, 7}`, `set_element(1, 42)` yields `{5, 42, 7}`
with size and capacity still 3, while `set_element(3, 42)` fails leaving
the vector unchanged. -/
theorem C9_set_element_witness :
    (okVec (set_element (fromList [5, 6, 7]) 1 42)).map toList = some [5, 42, 7] ∧
    (okVec (set_element (fromList [5, 6, 7]) 1 42)).map Vec.size = some 3 ∧
    (okVec (set_element (fromList [5, 6, 7]) 1 42)).map Vec.capacity = some 3 ∧
    errVec (set_element (fromList [5, 6, 7]) 3 42) = some (fromList [5, 6, 7]) := by
  have h1 := (C9_set_element (fromList [5, 6, 7]) 1 42).1 (by decide)
  have h2 := (C9_set_element (fromList [5, 6, 7]) 3 42).2.1 (by decide)
  refine ⟨?_, ?_, ?_, ?_⟩
  · rw [h1]; rfl
  · rw [h1]; rfl
  · rw [h1]; rfl
  · rw [h2]; rfl

/-- C7: `reserve(c)` never decreases `capacity()`; a request of `0` is
treated as a request for capacity `2`; when the adjusted request exceeds
`capacity()` the capacity becomes exactly that value with all elements
preserved in order, and otherwise `reserve` is a no-op.  `shrink_to_fit()`
never increases `capacity()` and always leaves `capacity() = size()`, all
elements preserved.  (`v` ranges over vectors satisfying the §3 data-model
invariant `size ≤ capacity`.) -/
theorem C7_reserve_shrink (v : Vec T) (c : Nat) (hinv : Inv v) :
    v.capacity ≤ (reserve v c).capacity ∧
    reserve v 0 = reserve v 2 ∧
    (v.capacity < (if c = 0 then 2 else c) →
      (reserve v c).capacity = (if c = 0 then 2 else c) ∧
      toList (reserve v c) = toList v) ∧
    ((if c = 0 then 2 else c) ≤ v.capacity → reserve v c = v) ∧
    (shrink_to_fit v).capacity ≤ v.capacity ∧
    (shrink_to_fit v).capacity = v.size ∧
    toList (shrink_to_fit v) = toList v := by
  refine ⟨?_, rfl, fun h => ⟨?_, ?_⟩, fun h => ?_, ?_, ?_, ?_⟩
  · rw [reserve]
    by_cases h : v.capacity < (if c = 0 then 2 else c)
    · rw [if_pos h]
      exact Nat.le_of_lt h
    · rw [if_neg h]
  · rw [reserve, if_pos h]
  · rw [reserve, if_pos h]
    exact toList_copy v _
  · rw [reserve, if_neg (by omega)]
  · rw [shrink_to_fit]
    by_cases h : v.size < v.capacity
    · rw [if_pos h]
      exact Nat.le_of_lt h
    · rw [if_neg h]
  · rw [shrink_to_fit]
    by_cases h : v.size < v.capacity
    · rw [if_pos h]
    · rw [if_neg h]
      rw [Inv] at hinv
      omega
  · rw [shrink_to_fit]
    by_cases h : v.size < v.capacity
    · rw [if_pos h]
      exact toList_copy v _
    · rw [if_neg h]

/-- C7 witness: on `{1, 2}` (size 2, capacity 2), `reserve(5)` grows the
capacity to exactly 5 keeping the elements, `reserve(1)` is a no-op, and
`shrink_to_fit` after the growth returns the capacity to 2. -/
theorem C7_reserve_shrink_witness :
    (reserve (fromList [1, 2]) 5).capacity = 5 ∧
    toList (reserve (fromList [1, 2]) 5) = [1, 2] ∧
    reserve (fromList [1, 2]) 1 = fromList [1, 2] ∧
    (shrink_to_fit (reserve (fromList [1, 2]) 5)).capacity = 2 ∧
    toList (shrink_to_fit (reserve (fromList [1, 2]) 5)) = [1, 2] := by
  have h1 := C7_reserve_shrink (fromList ([1, 2] : List Nat)) 5 (by unfold Inv; decide)
  have h2 := (C7_reserve_shrink (fromList ([1, 2] : List Nat)) 1
    (by unfold Inv; decide)).2.2.2.1 (by decide)
  have h3 := C7_reserve_shrink (reserve (fromList ([1, 2] : List Nat)) 5) 0
    (by unfold Inv; decide)
  refine ⟨(h1.2.2.1 (by decide)).1, ?_, h2, ?_, ?_⟩
  · rw [(h1.2.2.1 (by decide)).2]
    decide
  · rw [h3.2.2.2.2.2.1]
    decide
  · rw [h3.2.2.2.2.2.2, (h1.2.2.1 (by decide)).2]
    decide

omit [Inhabited T] in
/-- C8: for a position `p` within `[0, size)` of a non-empty vector,
`erase(pos)` shifts every subsequent element one slot left (the element
previously at `i + 1` moves to `i` for `i ∈ [p, size - 1)`), decrements
`size` by one, and leaves the elements before `p` (and the capacity)
unchanged.  The iterator argument is represented by its offset `p`; the
bound `v.size < W` reflects that `size_` is a `size_t` value. -/
theorem C8_erase (v : Vec T) (p : Nat) (hp : p < v.size) (hw : v.size < W) :
    (erase v p).size = v.size - 1 ∧
    (erase v p).capacity = v.capacity ∧
    (∀ j, j < p → (erase v p).data j = v.data j) ∧
    (∀ j, p ≤ j → j + 1 < v.size → (erase v p).data j = v.data (j + 1)) := by
  have hW : W = 2 ^ 64 := rfl
  have hbound : (v.size + (W - 1)) % W = v.size - 1 := by
    rw [hW] at hw ⊢
    omega
  refine ⟨hbound, rfl, fun j hj => ?_, fun j hj1 hj2 => ?_⟩
  · show eraseLoop v.data p ((v.size + (W - 1)) % W - p) j = v.data j
    rw [hbound, eraseLoop_eq, if_neg (by omega)]
  · show eraseLoop v.data p ((v.size + (W - 1)) % W - p) j = v.data (j + 1)
    rw [hbound, eraseLoop_eq, if_pos (by constructor <;> omega)]

/-- C8 witness: erasing position 1 of `{1, 2, 3}` yields `{1, 3}`. -/
theorem C8_erase_witness :
    (erase (fromList [1, 2, 3]) 1).size = 2 ∧
    (erase (fromList [1, 2, 3]) 1).capacity = 3 ∧
    (erase (fromList [1, 2, 3]) 1).data 0 = 1 ∧
    (erase (fromList [1, 2, 3]) 1).data 1 = 3 := by
  have h := C8_erase (fromList ([1, 2, 3] : List Nat)) 1 (by decide)
    (by rw [W]; decide)
  exact ⟨h.1, h.2.1, h.2.2.1 0 (by decide), h.2.2.2 1 (by decide) (by decide)⟩

/-- C6 counterexample: with the snapshot copy succeeding and the
allocation of the new buffer failing, `reserve(5)` on `{1}` (capacity 1)
escapes with the `capacity()` of the vector already set to 5 — the prior
state does not remain unchanged. -/
theorem C6_counterexample :
    Option.map Vec.capacity
        (errVec (reserveAlloc true false (fromList ([1] : List Nat)) 5)) = some 5 ∧
    (fromList ([1] : List Nat)).capacity = 1 := by
  constructor <;> rfl

/-- C6 amended: if the allocation inside the snapshot copy
(`auto tmp{*this}`) fails, the vector is left fully unchanged; if the
allocation of the new buffer fails, the buffer, the elements and the size
are left unchanged but `capacity()` has already been set to the adjusted
request; a batch insertion whose growth step fails escapes before any
element is shifted or written — elements and size are unchanged, only the
capacity may already hold the requested `size + n`. -/
theorem C6_alloc_failure (v : Vec T) (c p : Nat) (args : List T) (ok2 : Bool) :
    (errVec (reserveAlloc false ok2 v c) = none ∨
      errVec (reserveAlloc false ok2 v c) = some v) ∧
    (errVec (reserveAlloc true false v c) = none ∨
      errVec (reserveAlloc true false v c)
        = some ⟨v.data, v.size, if c = 0 then 2 else c⟩) ∧
    (∀ ok1 okk : Bool,
      errVecI (insert_manyAlloc ok1 okk v p args) = none ∨
      errVecI (insert_manyAlloc ok1 okk v p args) = some v ∨
      errVecI (insert_manyAlloc ok1 okk v p args)
        = some ⟨v.data, v.size, v.size + args.length⟩) := by
  refine ⟨?_, ?_, fun ok1 okk => ?_⟩
  · rw [reserveAlloc]
    by_cases h : v.capacity < (if c = 0 then 2 else c)
    · rw [if_pos h]
      right
      rfl
    · rw [if_neg h]
      left
      rfl
  · rw [reserveAlloc]
    by_cases h : v.capacity < (if c = 0 then 2 else c)
    · rw [if_pos h]
      right
      rfl
    · rw [if_neg h]
      left
      rfl
  · by_cases h : v.capacity < v.size + args.length
    · have hnc : (if v.size + args.length = 0 then 2 else v.size + args.length)
          = v.size + args.length := by
        rw [if_neg (by omega)]
      cases ok1 with
      | false =>
        right; left
        simp only [insert_manyAlloc, reserveAlloc, hnc, if_pos h]
        rfl
      | true =>
        cases okk with
        | false =>
          right; right
          simp only [insert_manyAlloc, reserveAlloc, hnc, if_pos h]
          rfl
        | true =>
          left
          simp only [insert_manyAlloc, reserveAlloc, hnc, if_pos h]
          rfl
    · left
      simp only [insert_manyAlloc, if_neg h]
      rfl

/-- C2 counterexample: from `{1, 2}` at capacity 2,
`insert_many_back(1, 2, 3, 4, 5)` leaves `capacity() = 4` (the single
doubling), not `capacity() ≥ 7` as the scenario of the claim states. -/
theorem C2_counterexample :
    ¬ 7 ≤ (insert_many_back (fromList ([1, 2] : List Nat)) [1, 2, 3, 4, 5]).capacity := by
  decide

/-- C2 amended: for a vector whose size equals its capacity,
`insert_many_back(v1..vn)` doubles the capacity (capacity 0 is raised
to 2) and then writes `v1..vn` in argument order at offsets
`[size, size + n)`; in the scenario (`{1, 2}` at capacity 2, five values
appended) the final logical sequence is `{1, 2, 1, 2, 3, 4, 5}` with
`size() = 7` but `capacity() = 4` — the size exceeds the once-doubled
capacity and the writes at offsets 4..6 land beyond the allocated buffer
(the documented §9 edge case). -/
theorem C2_insert_many_back (v : Vec T) (args : List T) (h : v.size = v.capacity) :
    (insert_many_back v args).capacity
      = (if v.capacity = 0 then 2 else v.capacity * 2) ∧
    (insert_many_back v args).size = v.size + args.length ∧
    (∀ j, j < v.size → (insert_many_back v args).data j = v.data j) ∧
    (∀ k, k < args.length →
      (insert_many_back v args).data (v.size + k) = args.getD k default) := by
  have hnc : (if v.capacity * 2 = 0 then 2 else v.capacity * 2)
      = (if v.capacity = 0 then 2 else v.capacity * 2) := by
    by_cases hc : v.capacity = 0
    · rw [if_pos (by omega), if_pos hc]
    · rw [if_neg (by omega), if_neg hc]
  have hlt : v.capacity < (if v.capacity * 2 = 0 then 2 else v.capacity * 2) := by
    by_cases hc : v.capacity = 0
    · rw [if_pos (by omega)]
      omega
    · rw [if_neg (by omega)]
      omega
  have hrep : insert_many_back v args =
      ⟨writeArgs (fun i => if i < v.size then v.data i else default) v.size args,
        v.size + args.length, if v.capacity * 2 = 0 then 2 else v.capacity * 2⟩ := by
    simp only [insert_many_back, reserve, if_pos h, if_pos hlt]
  rw [hrep]
  refine ⟨hnc, rfl, fun j hj => ?_, fun k hk => ?_⟩
  · show writeArgs (fun i => if i < v.size then v.data i else default) v.size args j
      = v.data j
    rw [writeArgs_eq, if_neg (by omega), if_pos hj]
  · show writeArgs (fun i => if i < v.size then v.data i else default) v.size args
      (v.size + k) = args.getD k default
    rw [writeArgs_eq, if_pos (by constructor <;> omega)]
    have hs : v.size + k - v.size = k := by omega
    rw [hs]

/-- C2 witness: the scenario itself, via the amended theorem — from
`{1, 2}` at capacity 2, appending `1, 2, 3, 4, 5` yields the logical
sequence `{1, 2, 1, 2, 3, 4, 5}` with `size() = 7` and `capacity() = 4`. -/
theorem C2_insert_many_back_witness :
    (insert_many_back (fromList ([1, 2] : List Nat)) [1, 2, 3, 4, 5]).capacity = 4 ∧
    (insert_many_back (fromList ([1, 2] : List Nat)) [1, 2, 3, 4, 5]).size = 7 ∧
    toList (insert_many_back (fromList ([1, 2] : List Nat)) [1, 2, 3, 4, 5])
      = [1, 2, 1, 2, 3, 4, 5] := by
  have h := C2_insert_many_back (fromList ([1, 2] : List Nat)) [1, 2, 3, 4, 5]
    (by decide)
  refine ⟨?_, ?_, by decide⟩
  · rw [h.1]
    decide
  · rw [h.2.1]
    decide

/-- The combined pointwise effect of the shift-then-write phase of
`insert_many` on a buffer `d` holding `S` elements: the arguments land at
`[p, p + n)` in order, the elements of `[p, S)` land at `[p + n, S + n)`,
slots below `p` are untouched, and the slot at the returned offset `p`
holds the first argument. -/
lemma insert_fields (d : Nat → T) (S p : Nat) (args : List T)
    (hp : p ≤ S) (hn : 1 ≤ args.length) :
    (∀ j, j < p →
      writeArgs (shiftIter d args.length (S + args.length - 1) (S - p)) p args j = d j) ∧
    (∀ k, k < args.length →
      writeArgs (shiftIter d args.length (S + args.length - 1) (S - p)) p args (p + k)
        = args.getD k default) ∧
    (∀ j, p ≤ j → j < S →
      writeArgs (shiftIter d args.length (S + args.length - 1) (S - p)) p args
        (j + args.length) = d j) ∧
    writeArgs (shiftIter d args.length (S + args.length - 1) (S - p)) p args p
      = args.getD 0 default := by
  refine ⟨fun j hj => ?_, fun k hk => ?_, fun j hj1 hj2 => ?_, ?_⟩
  · rw [insert_core d S p args hp, if_neg (by omega), if_neg (by omega)]
  · rw [insert_core d S p args hp, if_pos (by constructor <;> omega)]
    have hs : p + k - p = k := by omega
    rw [hs]
  · rw [insert_core d S p args hp, if_neg (by omega),
      if_pos (by constructor <;> omega)]
    have hs : j + args.length - args.length = j := by omega
    rw [hs]
  · rw [insert_core d S p args hp, if_pos (by constructor <;> omega),
      Nat.sub_self]

/-- C1: `insert_many(pos, v1..vn)` at offset `p ∈ [0, size]` leaves the
vector holding the old elements of `[0, p)` unchanged, the inserted
values at logical positions `[p, p + n)` in argument order, and the
elements previously at `[p, size)` at `[p + n, size + n)` in their
original relative order; the size grows by `n` and the returned iterator
(offset `p`) dereferences to `v1`. -/
theorem C1_insert_many (v : Vec T) (p : Nat) (args : List T)
    (hp : p ≤ v.size) (hn : 1 ≤ args.length) :
    (insert_many v p args).1.size = v.size + args.length ∧
    (insert_many v p args).2 = p ∧
    (∀ j, j < p → (insert_many v p args).1.data j = v.data j) ∧
    (∀ k, k < args.length →
      (insert_many v p args).1.data (p + k) = args.getD k default) ∧
    (∀ j, p ≤ j → j < v.size →
      (insert_many v p args).1.data (j + args.length) = v.data j) ∧
    (insert_many v p args).1.data (insert_many v p args).2
      = args.getD 0 default := by
  by_cases hg : v.capacity < v.size + args.length
  · have hnc : (if v.size + args.length = 0 then 2 else v.size + args.length)
        = v.size + args.length := by
      rw [if_neg (by omega)]
    have hrep : insert_many v p args =
        (⟨writeArgs (shiftIter (fun i => if i < v.size then v.data i else default)
            args.length (v.size + args.length - 1) (v.size - p)) p args,
          v.size + args.length, v.size + args.length⟩, p) := by
      simp only [insert_many, reserve, hnc, if_pos hg]
    have hf := insert_fields (fun i => if i < v.size then v.data i else default)
      v.size p args hp hn
    rw [hrep]
    refine ⟨rfl, rfl, fun j hj => ?_, fun k hk => hf.2.1 k hk, fun j hj1 hj2 => ?_,
      hf.2.2.2⟩
    · have h1 := hf.1 j hj
      dsimp only at h1
      rw [if_pos (show j < v.size by omega)] at h1
      exact h1
    · have h1 := hf.2.2.1 j hj1 hj2
      dsimp only at h1
      rw [if_pos hj2] at h1
      exact h1
  · have hrep : insert_many v p args =
        (⟨writeArgs (shiftIter v.data
            args.length (v.size + args.length - 1) (v.size - p)) p args,
          v.size + args.length, v.capacity⟩, p) := by
      simp only [insert_many, if_neg hg]
    have hf := insert_fields v.data v.size p args hp hn
    rw [hrep]
    exact ⟨rfl, rfl, hf.1, hf.2.1, hf.2.2.1, hf.2.2.2⟩

/-- C1 witness: the spec scenario — from `{1, 2, 3}`,
`insert_many(begin() + 1, 4, 5, 6)` yields `{1, 4, 5, 6, 2, 3}` with the
returned iterator at offset 1 dereferencing to `4`. -/
theorem C1_insert_many_witness :
    (insert_many (fromList ([1, 2, 3] : List Nat)) 1 [4, 5, 6]).1.size = 6 ∧
    (insert_many (fromList ([1, 2, 3] : List Nat)) 1 [4, 5, 6]).2 = 1 ∧
    (insert_many (fromList ([1, 2, 3] : List Nat)) 1 [4, 5, 6]).1.data
      (insert_many (fromList ([1, 2, 3] : List Nat)) 1 [4, 5, 6]).2 = 4 ∧
    toList (insert_many (fromList ([1, 2, 3] : List Nat)) 1 [4, 5, 6]).1
      = [1, 4, 5, 6, 2, 3] := by
  have h := C1_insert_many (fromList ([1, 2, 3] : List Nat)) 1 [4, 5, 6]
    (by decide) (by decide)
  exact ⟨h.1, h.2.1, h.2.2.2.2.2, by decide⟩

/-- C3 counterexample: `{1, 2}` satisfies the invariant, but after
`insert_many_back(1, 2, 3, 4, 5)` the vector has `size() = 7` and
`capacity() = 4` — `size ≤ capacity` is violated by a public operation
applied to a reachable vector. -/
theorem C3_counterexample :
    Inv (fromList ([1, 2] : List Nat)) ∧
    ¬ Inv (insert_many_back (fromList ([1, 2] : List Nat)) [1, 2, 3, 4, 5]) := by
  constructor
  · rw [Inv]
    decide
  · rw [Inv]
    decide

/-- Source `insert_many_back` preserves the invariant exactly when the appended
values fit under the once-checked (possibly doubled) capacity. -/
lemma insert_many_back_inv (v : Vec T) (args : List T) (hv : Inv v)
    (hfit : v.size + args.length ≤
      (if v.size = v.capacity then (if v.capacity = 0 then 2 else v.capacity * 2)
       else v.capacity)) :
    Inv (insert_many_back v args) := by
  by_cases h : v.size = v.capacity
  · have hlt : v.capacity < (if v.capacity * 2 = 0 then 2 else v.capacity * 2) := by
      by_cases hc : v.capacity = 0
      · rw [if_pos (by omega)]
        omega
      · rw [if_neg (by omega)]
        omega
    have hrep : insert_many_back v args =
        ⟨writeArgs (fun i => if i < v.size then v.data i else default) v.size args,
          v.size + args.length, if v.capacity * 2 = 0 then 2 else v.capacity * 2⟩ := by
      simp only [insert_many_back, reserve, if_pos h, if_pos hlt]
    rw [if_pos h] at hfit
    rw [hrep, Inv]
    show v.size + args.length ≤ (if v.capacity * 2 = 0 then 2 else v.capacity * 2)
    by_cases hc : v.capacity = 0
    · rw [if_pos (by omega)]
      rw [if_pos hc] at hfit
      exact hfit
    · rw [if_neg (by omega)]
      rw [if_neg hc] at hfit
      exact hfit
  · have hrep : insert_many_back v args =
        ⟨writeArgs v.data v.size args, v.size + args.length, v.capacity⟩ := by
      simp only [insert_many_back, if_neg h]
    rw [if_neg h] at hfit
    rw [hrep, Inv]
    exact hfit

/-- C3 amended: the invariant `0 ≤ size ≤ capacity` holds for every
freshly constructed vector and is preserved by every public operation
except `insert_many_back` (called with valid arguments: a position in
`[0, size)` for `erase`, `size_t`-sized vectors): `insert_many_back`
preserves it exactly when the number of appended values fits under the
once-checked, at-most-doubled capacity, and violates it otherwise (see
the counterexample); `push_back`, appending a single value, always
preserves it. -/
theorem C3_invariant_preservation :
    Inv (emptyVec : Vec T) ∧
    (∀ (n : Nat) (x : T), Inv (fillCtor n x)) ∧
    (∀ l : List T, Inv (fromList l)) ∧
    (∀ v : Vec T, Inv (copyCtor v)) ∧
    (∀ v : Vec T, Inv (moveCtor v).1 ∧ Inv (moveCtor v).2) ∧
    (∀ a b : Vec T, Inv b → Inv (moveAssign a b).1 ∧ Inv (moveAssign a b).2) ∧
    (∀ (v : Vec T) (x : T), Inv v → Inv (push_back v x)) ∧
    (∀ v : Vec T, Inv v → Inv (pop_back v)) ∧
    (∀ v : Vec T, Inv (clear v)) ∧
    (∀ (v : Vec T) (c : Nat), Inv v → Inv (reserve v c)) ∧
    (∀ v : Vec T, Inv v → Inv (shrink_to_fit v)) ∧
    (∀ (v : Vec T) (pos : Nat) (x : T) (w : Vec T), Inv v →
      okVec (set_element v pos x) = some w → Inv w) ∧
    (∀ (v : Vec T) (pos : Nat) (x : T) (w : Vec T), Inv v →
      errVec (set_element v pos x) = some w → Inv w) ∧
    (∀ a b : Vec T, Inv a → Inv b → Inv (swap a b).1 ∧ Inv (swap a b).2) ∧
    (∀ (v : Vec T) (p : Nat) (args : List T), Inv v → Inv (insert_many v p args).1) ∧
    (∀ (v : Vec T) (p : Nat), Inv v → p < v.size → v.size < W → Inv (erase v p)) ∧
    (∀ (v : Vec T) (args : List T), Inv v →
      v.size + args.length ≤
        (if v.size = v.capacity then (if v.capacity = 0 then 2 else v.capacity * 2)
         else v.capacity) →
      Inv (insert_many_back v args)) := by
  refine ⟨Nat.le_refl _, fun n x => Nat.le_refl _, fun l => Nat.le_refl _,
    fun v => Nat.le_refl _, fun v => ⟨Nat.le_refl _, Nat.le_refl _⟩,
    fun a b hb => ⟨hb, hb⟩, fun v x hv => ?_, fun v hv => ?_,
    fun v => Nat.zero_le _, fun v c hv => ?_, fun v hv => ?_,
    fun v pos x w hv hw => ?_, fun v pos x w hv hw => ?_,
    fun a b ha hb => ⟨hb, ha⟩, fun v p args hv => ?_, fun v p hv hp hw => ?_,
    fun v args hv hfit => insert_many_back_inv v args hv hfit⟩
  · refine insert_many_back_inv v [x] hv ?_
    rw [Inv] at hv
    have hlen : ([x] : List T).length = 1 := rfl
    rw [hlen]
    by_cases h : v.size = v.capacity
    · rw [if_pos h]
      by_cases hc : v.capacity = 0
      · rw [if_pos hc]
        omega
      · rw [if_neg hc]
        omega
    · rw [if_neg h]
      omega
  · rw [Inv] at hv ⊢
    unfold pop_back
    split_ifs with h
    · show v.size - 1 ≤ v.capacity
      omega
    · exact hv
  · rw [Inv] at hv
    by_cases h : v.capacity < (if c = 0 then 2 else c)
    · have hrep : reserve v c =
          ⟨fun i => if i < v.size then v.data i else default, v.size,
            if c = 0 then 2 else c⟩ := by
        simp only [reserve, if_pos h]
      rw [hrep, Inv]
      show v.size ≤ (if c = 0 then 2 else c)
      omega
    · have hrep : reserve v c = v := by
        simp only [reserve, if_neg h]
      rw [hrep, Inv]
      exact hv
  · by_cases h : v.size < v.capacity
    · have hrep : shrink_to_fit v =
          ⟨fun i => if i < v.size then v.data i else default, v.size, v.size⟩ := by
        simp only [shrink_to_fit, if_pos h]
      rw [hrep]
      exact Nat.le_refl _
    · have hrep : shrink_to_fit v = v := by
        simp only [shrink_to_fit, if_neg h]
      rw [hrep]
      exact hv
  · rw [set_element] at hw
    by_cases hpos : v.size ≤ pos
    · rw [if_pos hpos] at hw
      exact absurd hw (by rw [okVec]; exact fun hx => Option.noConfusion hx)
    · rw [if_neg hpos, okVec] at hw
      have hww := Option.some.inj hw
      rw [← hww, Inv]
      show v.size ≤ v.capacity
      exact hv
  · rw [set_element] at hw
    by_cases hpos : v.size ≤ pos
    · rw [if_pos hpos, errVec] at hw
      have hww := Option.some.inj hw
      rw [← hww]
      exact hv
    · rw [if_neg hpos] at hw
      exact absurd hw (by rw [errVec]; exact fun hx => Option.noConfusion hx)
  · by_cases hg : v.capacity < v.size + args.length
    · have hnc : (if v.size + args.length = 0 then 2 else v.size + args.length)
          = v.size + args.length := by
        rw [if_neg (by omega)]
      have hrep : (insert_many v p args).1 =
          ⟨writeArgs (shiftIter (fun i => if i < v.size then v.data i else default)
              args.length (v.size + args.length - 1) (v.size - p)) p args,
            v.size + args.length, v.size + args.length⟩ := by
        simp only [insert_many, reserve, hnc, if_pos hg]
      rw [hrep]
      exact Nat.le_refl _
    · have hrep : (insert_many v p args).1 =
          ⟨writeArgs (shiftIter v.data
              args.length (v.size + args.length - 1) (v.size - p)) p args,
            v.size + args.length, v.capacity⟩ := by
        simp only [insert_many, if_neg hg]
      rw [hrep, Inv]
      show v.size + args.length ≤ v.capacity
      omega
  · have hbound : (v.size + (W - 1)) % W = v.size - 1 := by
      rw [W] at hw ⊢
      omega
    rw [Inv] at hv ⊢
    show (v.size + (W - 1)) % W ≤ v.capacity
    rw [hbound]
    omega

/-- C3 witness: each hypothesis-bearing preservation fact of the amended
theorem, instantiated on small concrete vectors. -/
theorem C3_invariant_preservation_witness :
    Inv (moveAssign (fromList ([9] : List Nat)) (fromList [1, 2])).1 ∧
    Inv (push_back (fromList ([1] : List Nat)) 5) ∧
    Inv (pop_back (fromList ([1] : List Nat))) ∧
    Inv (reserve (fromList ([1] : List Nat)) 9) ∧
    Inv (shrink_to_fit (reserve (fromList ([1] : List Nat)) 9)) ∧
    Inv (swap (fromList ([1] : List Nat)) (fromList [2, 3])).1 ∧
    Inv (insert_many (fromList ([1] : List Nat)) 0 [7, 8]).1 ∧
    Inv (erase (fromList ([1, 2] : List Nat)) 0) ∧
    Inv (insert_many_back (fromList ([1] : List Nat)) [7]) := by
  have h := C3_invariant_preservation (T := Nat)
  have h12 : Inv (fromList ([1, 2] : List Nat)) := by rw [Inv]; decide
  have h1 : Inv (fromList ([1] : List Nat)) := by rw [Inv]; decide
  refine ⟨(h.2.2.2.2.2.1 (fromList [9]) (fromList [1, 2]) h12).1,
    h.2.2.2.2.2.2.1 (fromList [1]) 5 h1,
    h.2.2.2.2.2.2.2.1 (fromList [1]) h1,
    h.2.2.2.2.2.2.2.2.2.1 (fromList [1]) 9 h1,
    h.2.2.2.2.2.2.2.2.2.2.1 (reserve (fromList [1]) 9)
      (h.2.2.2.2.2.2.2.2.2.1 (fromList [1]) 9 h1),
    (h.2.2.2.2.2.2.2.2.2.2.2.2.2.1 (fromList [1]) (fromList [2, 3]) h1
      (by rw [Inv]; decide)).1,
    h.2.2.2.2.2.2.2.2.2.2.2.2.2.2.1 (fromList [1]) 0 [7, 8] h1,
    h.2.2.2.2.2.2.2.2.2.2.2.2.2.2.2.1 (fromList [1, 2]) 0 h12 (by decide)
      (by rw [W]; decide),
    h.2.2.2.2.2.2.2.2.2.2.2.2.2.2.2.2 (fromList [1]) [7] h1 (by decide)⟩

end Containers
